import Mathlib

/-!
Shallow embedding of the dense `Matrix<T>` component of
`src/math/linear_algebra/matrix.rs`, together with theorems settling the
specification claims about it.

Modelling conventions:
* `Vec<T>` is `List α`; `usize` indices are `Nat`.
* A Rust `panic!` / failed `assert!` is modelled as an explicit failure
  value (`Option.none`, or `Except.error` carrying the state present at
  the moment of the panic, so that partial mutation is observable).
* Infinite iterators such as `(0..)` are modelled by a list long enough
  for `take (rows * cols)` to consume, which is all the source reads.
-/

namespace Algorithms

/-- The `Matrix<T>` struct: `rows`, `cols`, and the flat backing store
`data` (row-major by the intended contract). -/
structure Matrix (α : Type) where
  rows : Nat
  cols : Nat
  data : List α
deriving DecidableEq

/-- Rust `Vec::swap(i, j)`: swaps the elements at positions `i` and `j`.
Rust panics when an index is out of range; the panic is modelled as
`Except.error` carrying the unchanged list. -/
def listSwap {α : Type} (l : List α) (i j : Nat) : Except (List α) (List α) :=
  if h : i < l.length ∧ j < l.length then
    Except.ok ((l.set i (l.get ⟨j, h.2⟩)).set j (l.get ⟨i, h.1⟩))
  else
    Except.error l

/-- Rust `Matrix::from_iter(rows, cols, data)`: takes the first `rows * cols`
elements of the producer; the `assert!(rows > 0 && cols > 0)` and the
`assert_eq!(data.len(), rows * cols)` are modelled as `none`. -/
def Matrix.from_iter {α : Type} (rows cols : Nat) (producer : List α) :
    Option (Matrix α) :=
  if rows > 0 ∧ cols > 0 then
    let data := producer.take (rows * cols)
    if data.length = rows * cols then some ⟨rows, cols, data⟩ else none
  else
    none

/-- Rust `Matrix::new(rows, cols)`: delegates to `from_iter` with the producer
`(0..).map(|_| zero)`; the infinite zero producer is modelled by
`rows * cols` zeros, all that `take` consumes. -/
def Matrix.new {α : Type} [Zero α] (rows cols : Nat) : Option (Matrix α) :=
  Matrix.from_iter rows cols (List.replicate (rows * cols) (0 : α))

/-- Rust `Matrix::identity(size)`: a `size × size` store of zeros with ones
written at flat indices `i * (size + 1)` for `i in 0..size`.  The source
contains no assertion on `size`, so the function is total. -/
def Matrix.identity (α : Type) [Zero α] [One α] (size : Nat) : Matrix α :=
  { rows := size, cols := size,
    data := (List.range size).foldl (fun d i => d.set (i * (size + 1)) (1 : α))
      (List.replicate (size * size) (0 : α)) }

/-- Rust `Matrix::get(row, col)`: bounds-checked read at flat index
`col + row * self.cols`. -/
def Matrix.get {α : Type} (m : Matrix α) (row col : Nat) : Option α :=
  if row < m.rows ∧ col < m.cols then m.data[col + row * m.cols]? else none

/-- Rust `Matrix::get_mut(row, col)`: same bounds rule as `get`; the mutable
reference it hands out is modelled by the value it designates (writes
through it are modelled by `Matrix.set`). -/
def Matrix.get_mut {α : Type} (m : Matrix α) (row col : Nat) : Option α :=
  if row < m.rows ∧ col < m.cols then m.data[col + row * m.cols]? else none

/-- Rust `Matrix::set(row, col, value)`: writes through `get_mut` when it is
`Some`, returning `true`; returns `false` and leaves the matrix untouched
otherwise.  The updated matrix is returned alongside the `bool`. -/
def Matrix.set {α : Type} (m : Matrix α) (row col : Nat) (value : α) :
    Bool × Matrix α :=
  match m.get_mut row col with
  | some _ => (true, { m with data := m.data.set (col + row * m.cols) value })
  | none => (false, m)

/-- Rust `Option::unwrap` of `Matrix::get`: the panic on `None` is modelled by
the junk value `default`; every use below sits under the length invariant,
where `get` is `some` and the junk value is never produced. -/
def Matrix.entry {α : Type} [Inhabited α] (m : Matrix α) (row col : Nat) : α :=
  (m.get row col).getD default

/-- Rust `Matrix::get_row(row)`: `None` when `row` is out of range, otherwise
the iterator `(0..cols).map(|col| get(row, col).unwrap())`, materialised
as a list. -/
def Matrix.get_row {α : Type} [Inhabited α] (m : Matrix α) (row : Nat) :
    Option (List α) :=
  if row < m.rows then
    some ((List.range m.cols).map fun col => m.entry row col)
  else
    none

/-- Rust `Matrix::get_col(col)`: `None` when `col` is out of range, otherwise
the iterator `(0..rows).map(|row| get(row, col).unwrap())`, materialised
as a list. -/
def Matrix.get_col {α : Type} [Inhabited α] (m : Matrix α) (col : Nat) :
    Option (List α) :=
  if col < m.cols then
    some ((List.range m.rows).map fun row => m.entry row col)
  else
    none

/-- Rust `Matrix::swap_rows(row_a, row_b)`: after the two asserts, the loop
`for col in 0..cols: data.swap(row_a + col, row_b * cols + col)` — the
first index reproduces the source exactly, including its missing
`* self.cols` factor.  `Except.error` carries the matrix as it stands at
the failure point. -/
def Matrix.swap_rows {α : Type} (m : Matrix α) (row_a row_b : Nat) :
    Except (Matrix α) (Matrix α) :=
  if row_a < m.rows ∧ row_b < m.rows then
    match (List.range m.cols).foldlM
        (fun d col => listSwap d (row_a + col) (row_b * m.cols + col)) m.data with
    | Except.ok d => Except.ok { m with data := d }
    | Except.error d => Except.error { m with data := d }
  else
    Except.error m

/-- Rust `Matrix::swap_cols(col_a, col_b)`: after the two asserts, the loop
`for row in 0..rows: data.swap(row * rows + col_a, row * rows + col_b)` —
the `row * self.rows` factor reproduces the source exactly (the source
uses `self.rows` where its row-major formula elsewhere uses `self.cols`).
`Except.error` carries the matrix as it stands at the failure point. -/
def Matrix.swap_cols {α : Type} (m : Matrix α) (col_a col_b : Nat) :
    Except (Matrix α) (Matrix α) :=
  if col_a < m.cols ∧ col_b < m.cols then
    match (List.range m.rows).foldlM
        (fun d row => listSwap d (row * m.rows + col_a) (row * m.rows + col_b)) m.data with
    | Except.ok d => Except.ok { m with data := d }
    | Except.error d => Except.error { m with data := d }
  else
    Except.error m

/-- Rust `Matrix::transpose`: a new matrix with the dimensions exchanged, whose
store is built by pushing `get_col(col).unwrap()` for `col in 0..cols`;
the `unwrap` of the (always-`Some`, since `col < cols`) option is `getD []`. -/
def Matrix.transpose {α : Type} [Inhabited α] (m : Matrix α) : Matrix α :=
  { rows := m.cols, cols := m.rows,
    data := (List.range m.cols).flatMap fun col => (m.get_col col).getD [] }

/-- Rust `Matrix::apply(func)`: a fold over the backing store in order, the
closure's accumulated state made explicit. -/
def Matrix.apply {α β : Type} (m : Matrix α) (func : β → α → β) (init : β) : β :=
  m.data.foldl func init

/-- Rust `Matrix::apply_mut(func)`: maps `func` over every element of the
backing store in place. -/
def Matrix.apply_mut {α : Type} (m : Matrix α) (func : α → α) : Matrix α :=
  { m with data := m.data.map func }

end Algorithms

deriving instance DecidableEq for Except

namespace Algorithms

/-- Flat row-major index bound: an in-bounds `(row, col)` addresses a slot
strictly below `rows * cols`. -/
theorem flat_index_lt {row col rows cols : Nat} (hr : row < rows) (hc : col < cols) :
    col + row * cols < rows * cols := by
  have h2 : (row + 1) * cols ≤ rows * cols := Nat.mul_le_mul_right cols hr
  have h3 : (row + 1) * cols = row * cols + cols := by ring
  omega

/-- Flat row-major indexing is injective on in-bounds column positions. -/
theorem flat_index_inj {cols r1 c1 r2 c2 : Nat} (h1 : c1 < cols) (h2 : c2 < cols)
    (h : c1 + r1 * cols = c2 + r2 * cols) : r1 = r2 ∧ c1 = c2 := by
  rcases Nat.lt_trichotomy r1 r2 with hlt | heq | hgt
  · have hm : (r1 + 1) * cols ≤ r2 * cols := Nat.mul_le_mul_right cols hlt
    have he : (r1 + 1) * cols = r1 * cols + cols := by ring
    omega
  · subst heq
    omega
  · have hm : (r2 + 1) * cols ≤ r1 * cols := Nat.mul_le_mul_right cols hgt
    have he : (r2 + 1) * cols = r2 * cols + cols := by ring
    omega

/-- C1: the claimed row-swap semantics fails on the code.  On
`from_iter(2,2,[0,1,2,3])`, `swap_rows(1, 0)` produces backing store
`[1, 2, 0, 3]`: position `(0,0)` holds `1`, not the `2` that row `0`
taking over old row `1` would require (the loop's first index is
`row_a + col`, missing the `* cols` factor). -/
theorem C1_swap_rows_not_a_row_swap :
    Matrix.from_iter 2 2 [0, 1, 2, 3] = some (⟨2, 2, [0, 1, 2, 3]⟩ : Matrix Nat) ∧
    (Matrix.mk 2 2 [0, 1, 2, 3] : Matrix Nat).swap_rows 1 0 =
      Except.ok ⟨2, 2, [1, 2, 0, 3]⟩ ∧
    (Matrix.mk 2 2 [1, 2, 0, 3] : Matrix Nat).get 0 0 = some 1 ∧
    (Matrix.mk 2 2 [1, 2, 0, 3] : Matrix Nat).get 0 0 ≠ some 2 ∧
    (Matrix.mk 2 2 [0, 1, 2, 3] : Matrix Nat).get 1 0 = some 2 := by
  decide

/-- C2: the claimed column-swap semantics fails on the code.  On the 2×3
matrix `from_iter(2,3,[0,1,2,3,4,5])`, `swap_cols(0, 1)` produces backing
store `[1, 0, 3, 2, 4, 5]`: position `(1,0)` holds `2`, not the old
`(1,1)` value `4` (the loop indexes with `row * rows` instead of
`row * cols`). -/
theorem C2_swap_cols_not_a_col_swap :
    Matrix.from_iter 2 3 [0, 1, 2, 3, 4, 5] =
      some (⟨2, 3, [0, 1, 2, 3, 4, 5]⟩ : Matrix Nat) ∧
    (Matrix.mk 2 3 [0, 1, 2, 3, 4, 5] : Matrix Nat).swap_cols 0 1 =
      Except.ok ⟨2, 3, [1, 0, 3, 2, 4, 5]⟩ ∧
    (Matrix.mk 2 3 [1, 0, 3, 2, 4, 5] : Matrix Nat).get 1 0 = some 2 ∧
    (Matrix.mk 2 3 [1, 0, 3, 2, 4, 5] : Matrix Nat).get 1 0 ≠ some 4 ∧
    (Matrix.mk 2 3 [0, 1, 2, 3, 4, 5] : Matrix Nat).get 1 1 = some 4 := by
  decide

/-- C3: the involution fails on the code.  Applying `swap_rows(1, 0)`
twice to the 2×2 matrix over `[0,1,2,3]` yields `[2, 0, 1, 3]`, not the
original store (the buggy first index makes the element swaps overlap). -/
theorem C3_swap_twice_not_involution :
    (Matrix.mk 2 2 [0, 1, 2, 3] : Matrix Nat).swap_rows 1 0 =
      Except.ok ⟨2, 2, [1, 2, 0, 3]⟩ ∧
    (Matrix.mk 2 2 [1, 2, 0, 3] : Matrix Nat).swap_rows 1 0 =
      Except.ok ⟨2, 2, [2, 0, 1, 3]⟩ ∧
    (⟨2, 2, [2, 0, 1, 3]⟩ : Matrix Nat) ≠ ⟨2, 2, [0, 1, 2, 3]⟩ := by
  decide

/-- C4: all-or-nothing mutation fails on the code.  On the 3×2 matrix over
`[0,1,2,3,4,5]`, `swap_cols(0, 1)` passes both asserts, swaps the first
two rows' elements, then panics at `row = 2` on the out-of-range index
`2 * 3 + 0 = 6`, leaving the partially mutated store `[1, 0, 2, 4, 3, 5]`. -/
theorem C4_swap_cols_not_atomic :
    (Matrix.mk 3 2 [0, 1, 2, 3, 4, 5] : Matrix Nat).swap_cols 0 1 =
      Except.error ⟨3, 2, [1, 0, 2, 4, 3, 5]⟩ ∧
    (⟨3, 2, [1, 0, 2, 4, 3, 5]⟩ : Matrix Nat) ≠ ⟨3, 2, [0, 1, 2, 3, 4, 5]⟩ := by
  decide

/-- C5: `identity(0)` does not fail.  `from_iter` and `new` do reject zero
dimensions, but `identity` has no size assertion and returns the 0×0
matrix with an empty store, contradicting its own doc comment
("Panics if `size` is zero or less"). -/
theorem C5_identity_zero_succeeds :
    Matrix.identity Nat 0 = ⟨0, 0, []⟩ ∧
    Matrix.from_iter 0 2 ([] : List Nat) = none ∧
    Matrix.from_iter 2 0 ([] : List Nat) = none ∧
    (Matrix.new 0 2 : Option (Matrix Nat)) = none ∧
    (Matrix.new 2 0 : Option (Matrix Nat)) = none := by
  decide

end Algorithms

namespace Algorithms

/-- C6: row-major addressing.  `from_iter(r, c, 0..)` yields the matrix
whose `get(i, j)` is `some (i*c + j)` for all in-bounds `i, j`, and that
value is read from flat index `i*c + j` of the backing store. -/
theorem C6_row_major_addressing (r c i j : Nat) (hr : 0 < r) (hc : 0 < c)
    (hi : i < r) (hj : j < c) :
    ∃ m : Matrix Nat, Matrix.from_iter r c (List.range (r * c)) = some m ∧
      m.get i j = some (i * c + j) ∧ m.get i j = m.data[i * c + j]? := by
  have hlen : (List.range (r * c)).length = r * c := List.length_range (r * c)
  have htake : (List.range (r * c)).take (r * c) = List.range (r * c) :=
    List.take_of_length_le (by rw [hlen])
  have hidx : j + i * c < r * c := flat_index_lt hi hj
  have hidx2 : i * c + j < r * c := by omega
  refine ⟨⟨r, c, List.range (r * c)⟩, ?_, ?_, ?_⟩
  · simp [Matrix.from_iter, htake, hlen, hr, hc]
  · show (if i < r ∧ j < c then (List.range (r * c))[j + i * c]? else none) = _
    rw [if_pos ⟨hi, hj⟩, List.getElem?_range hidx, Nat.add_comm]
  · show (if i < r ∧ j < c then (List.range (r * c))[j + i * c]? else none) = _
    rw [if_pos ⟨hi, hj⟩, List.getElem?_range hidx, Nat.add_comm]
    show _ = (List.range (r * c))[i * c + j]?
    rw [List.getElem?_range hidx2]

/-- C6 witness at `r = 2, c = 3, i = 1, j = 2`. -/
theorem C6_row_major_addressing_witness :
    ∃ m : Matrix Nat, Matrix.from_iter 2 3 (List.range 6) = some m ∧
      m.get 1 2 = some 5 ∧ m.get 1 2 = m.data[5]? :=
  C6_row_major_addressing 2 3 1 2 (by decide) (by decide) (by decide) (by decide)

/-- C8: out-of-bounds access is the explicit absent result, never a
failure: `get`, `get_mut` return `none`, `set` returns `false` and leaves
the matrix untouched, and the boundary probes `get(rows, 0)`,
`get(0, cols)`, `get_row(rows)`, `get_col(cols)` are all `none`. -/
theorem C8_out_of_bounds_absent {α : Type} [Inhabited α] (m : Matrix α)
    (row col : Nat) (v : α) (h : m.rows ≤ row ∨ m.cols ≤ col) :
    m.get row col = none ∧ m.get_mut row col = none ∧
    (m.set row col v).1 = false ∧ (m.set row col v).2 = m ∧
    m.get m.rows 0 = none ∧ m.get 0 m.cols = none ∧
    m.get_row m.rows = none ∧ m.get_col m.cols = none := by
  have hb : ¬(row < m.rows ∧ col < m.cols) := by omega
  refine ⟨?_, ?_, ?_, ?_, ?_, ?_, ?_, ?_⟩
  · simp [Matrix.get, hb]
  · simp [Matrix.get_mut, hb]
  · simp [Matrix.set, Matrix.get_mut, hb]
  · simp [Matrix.set, Matrix.get_mut, hb]
  · simp [Matrix.get]
  · simp [Matrix.get]
  · simp [Matrix.get_row]
  · simp [Matrix.get_col]

/-- C8 witness on the 2×2 matrix over `[0,1,2,3]` at `row = 5`. -/
theorem C8_out_of_bounds_absent_witness :
    (⟨2, 2, [0, 1, 2, 3]⟩ : Matrix Nat).get 5 0 = none ∧
    (⟨2, 2, [0, 1, 2, 3]⟩ : Matrix Nat).get_mut 5 0 = none ∧
    ((⟨2, 2, [0, 1, 2, 3]⟩ : Matrix Nat).set 5 0 7).1 = false ∧
    ((⟨2, 2, [0, 1, 2, 3]⟩ : Matrix Nat).set 5 0 7).2 = ⟨2, 2, [0, 1, 2, 3]⟩ ∧
    (⟨2, 2, [0, 1, 2, 3]⟩ : Matrix Nat).get 2 0 = none ∧
    (⟨2, 2, [0, 1, 2, 3]⟩ : Matrix Nat).get 0 2 = none ∧
    (⟨2, 2, [0, 1, 2, 3]⟩ : Matrix Nat).get_row 2 = none ∧
    (⟨2, 2, [0, 1, 2, 3]⟩ : Matrix Nat).get_col 2 = none :=
  C8_out_of_bounds_absent ⟨2, 2, [0, 1, 2, 3]⟩ 5 0 7 (Or.inl (by decide))

/-- C9: an in-bounds `set` returns `true`, stores the value at the target
cell, keeps the dimensions, and leaves every other in-bounds cell exactly
as it was. -/
theorem C9_set_in_bounds_frame {α : Type} (m : Matrix α) (row col : Nat) (v : α)
    (hwf : m.data.length = m.rows * m.cols) (hr : row < m.rows) (hc : col < m.cols) :
    (m.set row col v).1 = true ∧
    (m.set row col v).2.rows = m.rows ∧
    (m.set row col v).2.cols = m.cols ∧
    (m.set row col v).2.get row col = some v ∧
    (∀ r c, r < m.rows → c < m.cols → ¬(r = row ∧ c = col) →
      (m.set row col v).2.get r c = m.get r c) := by
  have hidx : col + row * m.cols < m.data.length := by
    rw [hwf]; exact flat_index_lt hr hc
  have hset : m.set row col v =
      (true, { m with data := m.data.set (col + row * m.cols) v }) := by
    simp [Matrix.set, Matrix.get_mut, hr, hc, List.getElem?_eq_getElem hidx]
  refine ⟨by rw [hset], by rw [hset], by rw [hset], ?_, ?_⟩
  · rw [hset]
    show (if row < m.rows ∧ col < m.cols then
      (m.data.set (col + row * m.cols) v)[col + row * m.cols]? else none) = some v
    rw [if_pos ⟨hr, hc⟩, List.getElem?_set, if_pos rfl, if_pos hidx]
  · intro r c hr2 hc2 hne
    have hdiff : col + row * m.cols ≠ c + r * m.cols := by
      intro he
      rcases flat_index_inj hc hc2 he with ⟨he1, he2⟩
      exact hne ⟨he1.symm, he2.symm⟩
    rw [hset]
    show (if r < m.rows ∧ c < m.cols then
        (m.data.set (col + row * m.cols) v)[c + r * m.cols]? else none) =
      (if r < m.rows ∧ c < m.cols then m.data[c + r * m.cols]? else none)
    rw [if_pos ⟨hr2, hc2⟩, if_pos ⟨hr2, hc2⟩, List.getElem?_set, if_neg hdiff]

/-- C9 witness: setting cell `(1, 0)` of the 2×2 matrix over `[0,1,2,3]`. -/
theorem C9_set_in_bounds_frame_witness :
    ((⟨2, 2, [0, 1, 2, 3]⟩ : Matrix Nat).set 1 0 9).1 = true ∧
    ((⟨2, 2, [0, 1, 2, 3]⟩ : Matrix Nat).set 1 0 9).2.rows = 2 ∧
    ((⟨2, 2, [0, 1, 2, 3]⟩ : Matrix Nat).set 1 0 9).2.cols = 2 ∧
    ((⟨2, 2, [0, 1, 2, 3]⟩ : Matrix Nat).set 1 0 9).2.get 1 0 = some 9 ∧
    (∀ r c, r < 2 → c < 2 → ¬(r = 1 ∧ c = 0) →
      ((⟨2, 2, [0, 1, 2, 3]⟩ : Matrix Nat).set 1 0 9).2.get r c =
        (⟨2, 2, [0, 1, 2, 3]⟩ : Matrix Nat).get r c) :=
  C9_set_in_bounds_frame ⟨2, 2, [0, 1, 2, 3]⟩ 1 0 9 rfl (by decide) (by decide)

end Algorithms

namespace Algorithms

/-- Length of a flat concatenation of `n` blocks of `k` entries each. -/
theorem length_blocks {α : Type} (f : Nat → Nat → α) (n k : Nat) :
    ((List.range n).flatMap fun i => (List.range k).map (f i)).length = n * k := by
  induction n with
  | zero => simp
  | succ n ih =>
    rw [List.range_succ, List.flatMap_append, List.length_append, ih]
    simp [Nat.succ_mul]

/-- Indexing into a flat concatenation of `n` blocks of `k` entries each:
position `a * k + b` holds the `b`-th entry of the `a`-th block. -/
theorem getElem?_blocks {α : Type} (f : Nat → Nat → α) (n k a b : Nat)
    (ha : a < n) (hb : b < k) :
    ((List.range n).flatMap fun i => (List.range k).map (f i))[a * k + b]? =
      some (f a b) := by
  induction n with
  | zero => exact absurd ha (by omega)
  | succ n ih =>
    rw [List.range_succ, List.flatMap_append, List.getElem?_append, length_blocks]
    rcases Nat.lt_or_ge a n with h1 | h1
    · have hcomm := flat_index_lt h1 hb
      have hlt : a * k + b < n * k := by omega
      rw [if_pos hlt]
      exact ih h1
    · have hae : a = n := by omega
      subst hae
      have hge : ¬a * k + b < a * k := by omega
      rw [if_neg hge]
      have hsub : a * k + b - a * k = b := by omega
      rw [hsub]
      simp [List.getElem?_range hb]

/-- The transpose's backing store, with the always-`Some` column reads
unfolded: block `col` of the store is column `col` of the source. -/
theorem transpose_data {α : Type} [Inhabited α] (m : Matrix α) :
    m.transpose.data = (List.range m.cols).flatMap fun col =>
      (List.range m.rows).map fun row => m.entry row col := by
  show ((List.range m.cols).flatMap fun col => (m.get_col col).getD []) = _
  apply List.flatMap_congr
  intro col hcol
  have hc : col < m.cols := List.mem_range.mp hcol
  simp [Matrix.get_col, hc]

/-- The transpose satisfies the length invariant. -/
theorem transpose_length {α : Type} [Inhabited α] (m : Matrix α) :
    m.transpose.data.length = m.cols * m.rows := by
  rw [transpose_data]
  exact length_blocks (fun col row => m.entry row col) m.cols m.rows

/-- Under the length invariant, an in-bounds `get` is `some` of the
unwrapped entry. -/
theorem get_eq_some_entry {α : Type} [Inhabited α] (m : Matrix α)
    (hwf : m.data.length = m.rows * m.cols) {i j : Nat}
    (hi : i < m.rows) (hj : j < m.cols) :
    m.get i j = some (m.entry i j) := by
  have hidx : j + i * m.cols < m.data.length := by
    rw [hwf]; exact flat_index_lt hi hj
  show (if i < m.rows ∧ j < m.cols then m.data[j + i * m.cols]? else none) =
    some (Option.getD (if i < m.rows ∧ j < m.cols then m.data[j + i * m.cols]?
      else none) default)
  rw [if_pos ⟨hi, hj⟩, List.getElem?_eq_getElem hidx]
  rfl

/-- Element `(i, j)` of the transpose is element `(j, i)` of the source. -/
theorem transpose_get {α : Type} [Inhabited α] (m : Matrix α)
    (hwf : m.data.length = m.rows * m.cols) {i j : Nat}
    (hi : i < m.cols) (hj : j < m.rows) :
    m.transpose.get i j = m.get j i := by
  show (if i < m.cols ∧ j < m.rows then m.transpose.data[j + i * m.rows]? else none) =
    m.get j i
  rw [if_pos ⟨hi, hj⟩, transpose_data, Nat.add_comm j (i * m.rows),
    getElem?_blocks (fun col row => m.entry row col) m.cols m.rows i j hi hj]
  exact (get_eq_some_entry m hwf hj hi).symm

/-- C7: the transpose has the dimensions exchanged, element `(a, b)` of
the transpose equals element `(b, a)` of the source, and transposing twice
restores the dimensions and every in-bounds value. -/
theorem C7_transpose_round_trip {α : Type} [Inhabited α] (m : Matrix α)
    (i j : Nat) (hwf : m.data.length = m.rows * m.cols)
    (hi : i < m.rows) (hj : j < m.cols) :
    m.transpose.rows = m.cols ∧ m.transpose.cols = m.rows ∧
    (∀ a b, a < m.cols → b < m.rows → m.transpose.get a b = m.get b a) ∧
    m.transpose.transpose.rows = m.rows ∧ m.transpose.transpose.cols = m.cols ∧
    m.transpose.transpose.get i j = m.get i j := by
  have hwf2 : m.transpose.data.length = m.transpose.rows * m.transpose.cols := by
    rw [transpose_length]; rfl
  refine ⟨rfl, rfl, ?_, rfl, rfl, ?_⟩
  · intro a b ha hb
    exact transpose_get m hwf ha hb
  · rw [transpose_get m.transpose hwf2 hi hj]
    exact transpose_get m hwf hj hi

/-- C7 witness on the 2×3 matrix over `[0,1,2,3,4,5]` at `(1, 2)`. -/
theorem C7_transpose_round_trip_witness :
    (⟨2, 3, [0, 1, 2, 3, 4, 5]⟩ : Matrix Nat).transpose.rows = 3 ∧
    (⟨2, 3, [0, 1, 2, 3, 4, 5]⟩ : Matrix Nat).transpose.cols = 2 ∧
    (∀ a b, a < 3 → b < 2 →
      (⟨2, 3, [0, 1, 2, 3, 4, 5]⟩ : Matrix Nat).transpose.get a b =
        (⟨2, 3, [0, 1, 2, 3, 4, 5]⟩ : Matrix Nat).get b a) ∧
    (⟨2, 3, [0, 1, 2, 3, 4, 5]⟩ : Matrix Nat).transpose.transpose.rows = 2 ∧
    (⟨2, 3, [0, 1, 2, 3, 4, 5]⟩ : Matrix Nat).transpose.transpose.cols = 3 ∧
    (⟨2, 3, [0, 1, 2, 3, 4, 5]⟩ : Matrix Nat).transpose.transpose.get 1 2 =
      (⟨2, 3, [0, 1, 2, 3, 4, 5]⟩ : Matrix Nat).get 1 2 :=
  C7_transpose_round_trip ⟨2, 3, [0, 1, 2, 3, 4, 5]⟩ 1 2 rfl (by decide) (by decide)

end Algorithms

namespace Algorithms

/-- A chain of `Vec::swap`s whose every index is within the store succeeds
and preserves the store's length. -/
theorem foldlM_listSwap_ok {α : Type} (g h : Nat → Nat) :
    ∀ (l : List Nat) (d : List α), (∀ c ∈ l, g c < d.length ∧ h c < d.length) →
      ∃ d2, l.foldlM (fun acc c => listSwap acc (g c) (h c)) d = Except.ok d2 ∧
        d2.length = d.length := by
  intro l
  induction l with
  | nil => exact fun d _ => ⟨d, rfl, rfl⟩
  | cons c cs ih =>
    intro d hcond
    have hc := hcond c (List.mem_cons_self c cs)
    have hswap : listSwap d (g c) (h c) =
        Except.ok ((d.set (g c) (d.get ⟨h c, hc.2⟩)).set (h c) (d.get ⟨g c, hc.1⟩)) := by
      unfold listSwap
      rw [dif_pos hc]
    have hlen1 : ((d.set (g c) (d.get ⟨h c, hc.2⟩)).set (h c)
        (d.get ⟨g c, hc.1⟩)).length = d.length := by
      simp
    obtain ⟨d2, h2, hl2⟩ := ih
      ((d.set (g c) (d.get ⟨h c, hc.2⟩)).set (h c) (d.get ⟨g c, hc.1⟩))
      (by
        intro x hx
        have hxc := hcond x (List.mem_cons_of_mem c hx)
        omega)
    refine ⟨d2, ?_, by omega⟩
    rw [List.foldlM_cons, hswap]
    exact h2

/-- C10: with in-bounds row arguments, every backing-store index that
`swap_rows` touches is strictly below `rows * cols`, so the loop performs
no out-of-range access: past its two asserts, `swap_rows` always returns
successfully. -/
theorem C10_swap_rows_in_bounds {α : Type} (m : Matrix α) (row_a row_b : Nat)
    (hwf : m.data.length = m.rows * m.cols)
    (ha : row_a < m.rows) (hb : row_b < m.rows) :
    (∀ col, col < m.cols → row_a + col < m.rows * m.cols ∧
      row_b * m.cols + col < m.rows * m.cols) ∧
    ∃ m2, m.swap_rows row_a row_b = Except.ok m2 := by
  have hbound : ∀ col, col < m.cols → row_a + col < m.rows * m.cols ∧
      row_b * m.cols + col < m.rows * m.cols := by
    intro col hcol
    have h1 := flat_index_lt ha hcol
    have h2 := flat_index_lt hb hcol
    have hc1 : 1 ≤ m.cols := by omega
    have h3 : row_a * 1 ≤ row_a * m.cols := Nat.mul_le_mul_left row_a hc1
    omega
  refine ⟨hbound, ?_⟩
  obtain ⟨d2, hfold, hlen⟩ := foldlM_listSwap_ok (fun col => row_a + col)
    (fun col => row_b * m.cols + col) (List.range m.cols) m.data
    (by
      intro c hcmem
      have hcm : c < m.cols := List.mem_range.mp hcmem
      have hbc := hbound c hcm
      show row_a + c < m.data.length ∧ row_b * m.cols + c < m.data.length
      omega)
  refine ⟨{ m with data := d2 }, ?_⟩
  unfold Matrix.swap_rows
  rw [if_pos ⟨ha, hb⟩, hfold]

/-- C10 witness on the 2×2 matrix over `[0,1,2,3]` with rows `1` and `0`. -/
theorem C10_swap_rows_in_bounds_witness :
    (∀ col, col < 2 → 1 + col < 2 * 2 ∧ 0 * 2 + col < 2 * 2) ∧
    ∃ m2, (⟨2, 2, [0, 1, 2, 3]⟩ : Matrix Nat).swap_rows 1 0 = Except.ok m2 :=
  C10_swap_rows_in_bounds ⟨2, 2, [0, 1, 2, 3]⟩ 1 0 rfl (by decide) (by decide)

end Algorithms
